import Mathlib

/-!
# Verification of the brand-forecasting pipeline

Shallow embedding of the core of the repository
`Brand-forecasting-pipeline-project`:

* `src/data_preprocessing.py`  (`preprocess_data`)
* `src/prophet_forecast.py`    (`forecast_with_prophet`)
* `src/lstm_forecast.py`       (`run_lstm_forecast`)

Modelling conventions:

* Numeric cell values are rationals `ℚ`; a pandas cell that is `NaN`
  or `±inf` is modelled as `none : Option ℚ` (the two are lumped
  together; the distinction never matters for the properties below).
* Dates are day numbers `ℤ` (the sources convert the `Date` column to
  `datetime64` days; daily frequency makes "+1 day" into `+1`).
* Brand / category / region names are integer codes `ℕ` (the sources
  use strings; only equality and ordering of the keys is relevant).
* The opaque numerical primitives of the model libraries (a fitted
  Prophet model's `predict`, a trained LSTM's forward pass, `np.sqrt`
  and the sample standard deviation, which are irrational-valued) are
  parameters of the embedding; every theorem quantifies over them.
-/

namespace BrandForecast

/-! ## Generic column helpers (pandas semantics) -/

/-- The non-missing values of a column (`skipna` semantics). -/
def presentVals (col : List (Option ℚ)) : List ℚ := col.filterMap id

/-- Arithmetic mean of a list (`0` on the empty list; the empty case is
never reached where the sources use it). -/
def meanQ (xs : List ℚ) : ℚ := xs.sum / xs.length

/-- pandas `Series.median` on the non-missing values: middle element of
the sorted list, or the average of the two middle elements. -/
def medianQ (xs : List ℚ) : ℚ :=
  let s := xs.insertionSort (· ≤ ·)
  let n := s.length
  if n % 2 = 1 then s.getD (n / 2) 0
  else (s.getD (n / 2 - 1) 0 + s.getD (n / 2) 0) / 2

/-- pandas `Series.nunique`: number of distinct non-missing values. -/
def nuniqueQ (col : List (Option ℚ)) : ℕ := (col.filterMap id).dedup.length

/-- pandas `sum` aggregation of a group, with `none` (non-finite)
propagating: the sources only ever drop a summed target when some
summand was non-finite (`±inf`), which this models. -/
def aggSumOpt (col : List (Option ℚ)) : Option ℚ :=
  if col.all (·.isSome) then some (presentVals col).sum else none

/-- pandas `mean` aggregation of a group (`skipna`): mean of the
non-missing values, `none` when all are missing. -/
def aggMeanOpt (col : List (Option ℚ)) : Option ℚ :=
  let p := presentVals col
  if p.isEmpty then none else some (p.sum / p.length)

/-! ## Sorted unique keys and `groupby`

pandas `df.groupby(key)` iterates the distinct key values in ascending
order, each with the sub-frame of rows having that key (original
relative order preserved).  `insKey` inserts a key into a strictly
ascending list, `sortedKeys` collects the distinct keys of a list in
ascending order, and `groupByKey` is the resulting grouping. -/

def insKey {κ : Type*} [LinearOrder κ] (d : κ) : List κ → List κ
  | [] => [d]
  | x :: xs => if d < x then d :: x :: xs else if d = x then x :: xs else x :: insKey d xs

def sortedKeys {κ : Type*} [LinearOrder κ] (l : List κ) : List κ :=
  l.foldr insKey []

def groupByKey {α : Type*} {κ : Type*} [LinearOrder κ] (key : α → κ) (l : List α) :
    List (κ × List α) :=
  (sortedKeys (l.map key)).map (fun k => (k, l.filter (fun a => key a = k)))

/-! ## Forecaster input rows

Both forecasters read the same `processed_sales.csv`.  Only the columns
they touch are modelled. -/

/-- A row of the processed table as consumed by the forecasters. -/
structure SRow where
  date : Int
  brand : ℕ
  totalSales : Option ℚ
  onlinePopularity : Option ℚ
  /-- The 11 prophet `extra_regressors` in their source order:
  Competitor_Price, Category_Trend_Index, Customer_Growth_Rate,
  Customer_Retention_Rate, Stock_Level, Supply_Delay_Days,
  Inflation_Rate, Weather_Score, Promotion, Discount_Percentage,
  Is_Holiday. -/
  regs : List (Option ℚ)
deriving DecidableEq, Repr

/-- A metrics row (`{"Brand": …, "RMSE": …, "MAPE (%)": …}`). -/
structure MetRow where
  brand : ℕ
  rmse : ℚ
  mape : ℚ
deriving DecidableEq, Repr

/-- sklearn `mean_absolute_percentage_error` clamps the denominator at
machine epsilon, `np.finfo(np.float64).eps = 2 ^ (-52)`. -/
def epsMAPE : ℚ := 1 / 2 ^ 52

/-- RMSE of predictions against actuals; `np.sqrt` is the opaque
parameter `sqrtQ`. -/
def rmseOf (sqrtQ : ℚ → ℚ) (actual preds : List ℚ) : ℚ :=
  sqrtQ (meanQ (List.zipWith (fun t p => (t - p) ^ 2) actual preds))

/-- sklearn MAPE (in percent, as both sources multiply by 100). -/
def mapeOf (actual preds : List ℚ) : ℚ :=
  100 * meanQ (List.zipWith (fun t p => |t - p| / max |t| epsMAPE) actual preds)

/-- pandas `Series.max` of a date column (the sources only apply it to
nonempty columns). -/
def listMaxI (l : List Int) : Int := l.foldl max (l.headD 0)

/-! ## Seasonal (Prophet) forecaster — `src/prophet_forecast.py` -/

/-- A row of `prophet_df` after the per-date aggregation and renaming
(`ds`, `y`, `Trend_Score` plus regressors). -/
structure PDRow where
  ds : Int
  y : Option ℚ
  /-- Column 0 is `Trend_Score` (renamed `Online_Popularity`), columns
  1–11 are the `extra_regressors` in order. -/
  cols : List (Option ℚ)
deriving DecidableEq, Repr

/-- A row of the emitted `prophet_forecast_results.csv`
(`Date, Brand, Predicted_Sales, yhat_lower, yhat_upper`). -/
structure PFRow where
  date : Int
  brand : ℕ
  predictedSales : ℚ
  predictedLower : ℚ
  predictedUpper : ℚ
deriving DecidableEq, Repr

/-- Lines 41–55: per-date aggregation (`Total_Sales` summed, all other
columns averaged) and renaming into the generic prophet schema.  All
12 regressor columns are present in the processed file, so
`used_regressors` is always the full `extra_regressors` list. -/
def prophetAgg (rows : List SRow) : List PDRow :=
  (groupByKey (fun r => r.date) rows).map (fun g =>
    { ds := g.1
      y := aggSumOpt (g.2.map (·.totalSales))
      cols := aggMeanOpt (g.2.map (·.onlinePopularity)) ::
        (List.range 11).map (fun j => aggMeanOpt (g.2.map (fun r => r.regs.getD j none))) })

/-- Lines 57–65: replace `±inf` by missing and drop the rows whose
target `y` is missing or non-numeric. -/
def prophetCleaned (rows : List SRow) : List PDRow :=
  (prophetAgg rows).filter (fun r => r.y.isSome)

/-- Lines 97–107: admit `Trend_Score` (column 0) and then each extra
regressor (columns 1–11) only when it has more than one distinct value
on the training split (`Series.nunique() > 1`). -/
def regressorsToUse (train : List PDRow) : List ℕ :=
  (if 1 < nuniqueQ (train.map (fun r => r.cols.getD 0 none)) then [0] else []) ++
  (List.range 11).filterMap (fun j =>
    if 1 < nuniqueQ (train.map (fun r => r.cols.getD (j + 1) none)) then some (j + 1) else none)

/-- The `int(len(prophet_df) * 0.8)` of line 83 (exact for `float64`
at every realistic length). -/
def prophetTrainSize (n : ℕ) : ℕ := n * 4 / 5

/-- `train = prophet_df[:train_size]` (line 84). -/
def prophetTrain (rows : List SRow) : List PDRow :=
  (prophetCleaned rows).take (prophetTrainSize (prophetCleaned rows).length)

/-- `test = prophet_df[train_size:]` (line 84). -/
def prophetTest (rows : List SRow) : List PDRow :=
  (prophetCleaned rows).drop (prophetTrainSize (prophetCleaned rows).length)

/-- The `ds` column of `model.make_future_dataframe(periods=30)`
(line 127): the fitted history — the training dates — followed by the
30 consecutive days after the last training date
(`include_history=True` is the prophet default). -/
def prophetFutureDates (rows : List SRow) : List Int :=
  (prophetTrain rows).map (·.ds) ++
    (List.range 30).map
      (fun (i : ℕ) => listMaxI ((prophetTrain rows).map (·.ds)) + 1 + (i : ℤ))

/-- Prophet's `predict` validates the frame it is given
(`setup_dataframe`): a missing value in an admitted regressor column
raises `ValueError("Found NaN in column …")`.  The training split is
guarded NaN-free upstream (line 90) but the test split is not, so
`model.predict(test[test_predictors])` at line 122 raises exactly when
an admitted regressor is missing on some test row.  (The later
`model.predict(future)` at line 135 cannot raise: the future frame's
regressors start from the NaN-free training dates and line 134
forward-fills every remaining gap.) -/
def prophetPredictRaises (rows : List SRow) : Bool :=
  (prophetTest rows).any (fun r =>
    (regressorsToUse (prophetTrain rows)).any (fun j => (r.cols.getD j none).isNone))

/-- One brand's pass through the prophet loop body (lines 38–137).
`fit` abstracts `Prophet.fit` / `Prophet.predict`: from the training
rows and the admitted regressor columns it yields, per date, the
`(yhat, yhat_lower, yhat_upper)` triple.  (The regressor values fed to
`predict` — merged from history and forward-filled — only influence
the opaque predictions, never which rows are emitted, so they are
absorbed into `fit`.)  `.ok none` means the brand was skipped by a
`continue`; `.error` models the uncaught `ValueError` that
`model.predict(test)` raises on a missing admitted regressor in the
unguarded test split (line 122), which aborts the whole run. -/
def prophetBrand (sqrtQ : ℚ → ℚ) (fit : List PDRow → List ℕ → Int → ℚ × ℚ × ℚ)
    (brand : ℕ) (rows : List SRow) : Except String (Option (List PFRow × MetRow)) :=
  if (prophetCleaned rows).length < 3 then .ok none else
  if (prophetTrain rows).length < 2
      ∨ ((prophetTrain rows).any (fun r => r.y.isNone || r.cols.any (·.isNone))) = true
    then .ok none else
  if (prophetTest rows).isEmpty then .ok none else
  if prophetPredictRaises rows then .error "Found NaN in column" else
  let predict := fit (prophetTrain rows) (regressorsToUse (prophetTrain rows))
  -- `make_future_dataframe(periods=30)` keeps the fitted history and
  -- appends 30 days; `model.predict(future)` is evaluated on all of
  -- them and the whole frame is appended to `forecast_results`
  -- (lines 127–137).
  .ok (some ((prophetFutureDates rows).map (fun d =>
          { date := d, brand := brand, predictedSales := (predict d).1,
            predictedLower := (predict d).2.1, predictedUpper := (predict d).2.2 }),
        { brand := brand,
          rmse := rmseOf sqrtQ ((prophetTest rows).map (fun r => r.y.getD 0))
            ((prophetTest rows).map (fun r => (predict r.ds).1)),
          mape := mapeOf ((prophetTest rows).map (fun r => r.y.getD 0))
            ((prophetTest rows).map (fun r => (predict r.ds).1)) }))

/-! ## Sequence (LSTM) forecaster — `src/lstm_forecast.py` -/

/-- A row of the emitted `lstm_forecast_results.csv`. -/
structure LFRow where
  date : Int
  brand : ℕ
  predictedSales : ℚ
deriving DecidableEq, Repr

/-- The LSTM `extra_regressors` are the first eight of the prophet
list followed by `Is_Holiday` (index 10); `Promotion` and
`Discount_Percentage` do not appear there. -/
def lstmRegIdx : List ℕ := [0, 1, 2, 3, 4, 5, 6, 7, 10]

/-- Lines 53–70: per-date aggregation and assembly of the feature
columns `[Total_Sales, Online_Popularity] ++ extra_regressors`
(11 features).  Cells stay optional: `none` is a NaN (all-missing
date group under the `skipna` mean) or a non-finite sum. -/
def lstmAggRaw (rows : List SRow) : List (Int × List (Option ℚ)) :=
  (groupByKey (fun r => r.date) rows).map (fun g =>
    (g.1,
     aggSumOpt (g.2.map (·.totalSales)) ::
       aggMeanOpt (g.2.map (·.onlinePopularity)) ::
       lstmRegIdx.map (fun j => aggMeanOpt (g.2.map (fun r => r.regs.getD j none)))))

/-- Whether the brand's feature matrix contains a missing (NaN or
non-finite) cell.  `MinMaxScaler` passes NaN through unchanged, so
such a cell flows through the scaler, the windows and the tensors
into training and prediction; `mean_squared_error` (line 119) then
rejects non-finite input and raises, aborting the run. -/
def lstmHasMissing (rows : List SRow) : Bool :=
  (lstmAggRaw rows).any (fun g => g.2.any (·.isNone))

/-- `brand_df[features].values` with every cell unwrapped.  This is
only consumed on the path where `lstmHasMissing` is false, so the
`.getD 0` is plain unwrapping of a present value, never a default. -/
def lstmAgg (rows : List SRow) : List (Int × List ℚ) :=
  (lstmAggRaw rows).map (fun g => (g.1, g.2.map (·.getD 0)))

/-- `brand_df[features].values` (line 76). -/
def lstmFeatureMatrix (rows : List SRow) : List (List ℚ) := (lstmAgg rows).map (·.2)

/-- `seq_length = 7` (line 51). -/
def seqLength : ℕ := 7

/-- Per-column `(data_min_, data_range_)` of `MinMaxScaler.fit` on a
matrix of width `w` (default `feature_range=(0, 1)`; sklearn replaces
a zero data range by 1 inside `scale_`). -/
def mmParams (w : ℕ) (M : List (List ℚ)) : List (ℚ × ℚ) :=
  (List.range w).map (fun j =>
    let c := M.map (fun r => r.getD j 0)
    (c.foldr min (c.headD 0), c.foldr max (c.headD 0) - c.foldr min (c.headD 0)))

/-- `MinMaxScaler.transform` of one row. -/
def mmScaleRow (ps : List (ℚ × ℚ)) (r : List ℚ) : List ℚ :=
  List.zipWith (fun p x => (x - p.1) / (if p.2 = 0 then 1 else p.2)) ps r

/-- `MinMaxScaler.inverse_transform` of one row. -/
def mmInvRow (ps : List (ℚ × ℚ)) (r : List ℚ) : List ℚ :=
  List.zipWith (fun p x => x * (if p.2 = 0 then 1 else p.2) + p.1) ps r

/-- One step of the 30-step recursive rollout (lines 126–132): predict
from the last `seqLength` rows of the running scaled series
(`scaled[-seq_length:]`), then append a synthetic row whose head is
the prediction and whose remaining features are copied from the
running series' last row (`scaled[-1]`). -/
def rolloutStep (model : List (List ℚ) → ℚ) (scaled : List (List ℚ)) : List (List ℚ) :=
  let pred := model (scaled.drop (scaled.length - seqLength))
  scaled ++ [pred :: (scaled.getLast?.getD []).tail]

/-- The running series after `n` rollout steps. -/
def rolloutN (model : List (List ℚ) → ℚ) (scaled : List (List ℚ)) : ℕ → List (List ℚ)
  | 0 => scaled
  | n + 1 => rolloutStep model (rolloutN model scaled n)

/-- `scaled = scaler.fit_transform(feature_array)` (lines 78–79). -/
def lstmScaled (rows : List SRow) : List (List ℚ) :=
  (lstmFeatureMatrix rows).map (mmScaleRow (mmParams 11 (lstmFeatureMatrix rows)))

/-- The window samples `X` of lines 81–86: sample `i` is the
`seq_length` consecutive scaled rows starting at `i`. -/
def lstmWindows (rows : List SRow) : List (List (List ℚ)) :=
  (List.range ((lstmScaled rows).length - seqLength)).map
    (fun i => ((lstmScaled rows).drop i).take seqLength)

/-- The labels `y` of lines 81–86: the scaled `Total_Sales` of the row
immediately after each window. -/
def lstmLabels (rows : List SRow) : List ℚ :=
  (List.range ((lstmScaled rows).length - seqLength)).map
    (fun i => ((lstmScaled rows).getD (i + seqLength) []).getD 0 0)

/-- `pd.date_range(brand_df["Date"].max() + 1 day, periods=30)`
(line 143). -/
def lstmFutureDates (rows : List SRow) : List Int :=
  (List.range 30).map (fun (i : ℕ) => listMaxI ((lstmAgg rows).map (·.1)) + 1 + (i : ℤ))

/-- One brand's pass through the LSTM loop body (lines 53–148).
`trainModel` abstracts lines 96–112 (building and fitting the network
on the training windows and labels); the function it returns is the
trained network's forward pass on one window.  `.ok none` means the
brand was skipped; `.error` models the uncaught `ValueError` raised
by `mean_squared_error` (line 119) once a missing feature cell has
flowed through scaler and tensors into the evaluated predictions,
aborting the whole run.  (Both skip guards precede the raise: the
row-count guard at line 72 and the sample-count guard at line 88 fire
before evaluation reaches line 119.) -/
def lstmBrand (sqrtQ : ℚ → ℚ)
    (trainModel : List (List (List ℚ)) → List ℚ → List (List ℚ) → ℚ)
    (brand : ℕ) (rows : List SRow) : Except String (Option (List LFRow × MetRow)) :=
  if (lstmAgg rows).length < seqLength + 1 then .ok none else
  if (lstmWindows rows).length < 20 then .ok none else
  if lstmHasMissing rows then .error "Input contains NaN" else
  let ps := mmParams 11 (lstmFeatureMatrix rows)
  let scaled := lstmScaled rows
  let trainSize := (lstmWindows rows).length * 4 / 5
  let model := trainModel ((lstmWindows rows).take trainSize) ((lstmLabels rows).take trainSize)
  let preds := ((lstmWindows rows).drop trainSize).map model
  let rolled := rolloutN model scaled 30
  let futureScaled := rolled.drop scaled.length
  -- `np.tile(brand_df[features[1:]].iloc[-1].values, (30, 1))`: the
  -- inverse transform is fed the *unscaled* last-row features next to
  -- each scaled prediction; only column 0 of its output is kept.
  let lastFeats := ((lstmFeatureMatrix rows).getLast?).getD []
  let fullInverseData := futureScaled.map (fun r => r.headD 0 :: lastFeats.tail)
  let futureSales := fullInverseData.map (fun r => (mmInvRow ps r).headD 0)
  .ok (some ((List.range 30).map (fun (i : ℕ) =>
          { date := listMaxI ((lstmAgg rows).map (·.1)) + 1 + (i : ℤ), brand := brand,
            predictedSales := futureSales.getD i 0 }),
        { brand := brand,
          rmse := rmseOf sqrtQ ((lstmLabels rows).drop trainSize) preds,
          mape := mapeOf ((lstmLabels rows).drop trainSize) preds }))

/-! ## Per-brand orchestration loop -/

/-- One iteration of the accumulation shared by both entry points: a
raise already in flight propagates (nothing later in the loop runs,
and the output files are written only after the loop), a skip leaves
the accumulator alone, a success appends the forecast rows and the
one metrics row (`forecast_results`/`forecasts` and `metrics` lists
of the sources). -/
def loopStep {F : Type*} (procBrand : ℕ → List SRow → Except String (Option (List F × MetRow)))
    (acc : Except String (List F × List MetRow)) (g : ℕ × List SRow) :
    Except String (List F × List MetRow) :=
  match acc with
  | .error e => .error e
  | .ok a =>
    match procBrand g.1 g.2 with
    | .error e => .error e
    | .ok none => .ok a
    | .ok (some (fs, m)) => .ok (a.1 ++ fs, a.2 ++ [m])

/-- The per-brand orchestration loop over `df.groupby("Brand")`. -/
def runForecastLoop {F : Type*}
    (procBrand : ℕ → List SRow → Except String (Option (List F × MetRow)))
    (df : List SRow) : Except String (List F × List MetRow) :=
  (groupByKey (fun r => r.brand) df).foldl (loopStep procBrand) (.ok ([], []))

/-- Entry point of `prophet_forecast.py`: `none` input models the
missing `processed_sales.csv` (the `FileNotFoundError` of line 31);
an `.error` from the loop is the uncaught per-brand `ValueError`. -/
def forecast_with_prophet (sqrtQ : ℚ → ℚ) (fit : List PDRow → List ℕ → Int → ℚ × ℚ × ℚ)
    (input : Option (List SRow)) : Except String (List PFRow × List MetRow) :=
  match input with
  | none => .error "processed_sales.csv not found. Run preprocessing first."
  | some df => runForecastLoop (prophetBrand sqrtQ fit) df

/-- Entry point of `lstm_forecast.py` (line 40 raises on the missing
input file; an `.error` from the loop is the uncaught per-brand
`ValueError`). -/
def run_lstm_forecast (sqrtQ : ℚ → ℚ)
    (trainModel : List (List (List ℚ)) → List ℚ → List (List ℚ) → ℚ)
    (input : Option (List SRow)) : Except String (List LFRow × List MetRow) :=
  match input with
  | none => .error "processed_sales.csv not found. Did preprocessing run?"
  | some df => runForecastLoop (lstmBrand sqrtQ trainModel) df

/-! ## Preprocessing — `src/data_preprocessing.py` -/

/-- A row of the raw `brand_sales_dataset.csv`.  The `Month` and `Week`
columns are not modelled: the final aggregation drops them.  Derived
fields (`*Enc`, `salesLag1`, `salesMA3`) are populated by the pipeline
and default to placeholders in the raw frame. -/
structure RawRow where
  date : Int
  category : ℕ
  brand : ℕ
  region : ℕ
  totalSales : Option ℚ
  quantitySold : Option ℚ
  onlinePopularity : Option ℚ
  /-- The eight `numeric_fill_cols`: Competitor_Price,
  Category_Trend_Index, Customer_Growth_Rate, Customer_Retention_Rate,
  Stock_Level, Supply_Delay_Days, Inflation_Rate, Weather_Score. -/
  covs : List (Option ℚ)
  promotion : Option ℚ
  discountPercentage : Option ℚ
  isHoliday : Option ℚ
  catEnc : ℕ := 0
  brandEnc : ℕ := 0
  regEnc : ℕ := 0
  salesLag1 : Option ℚ := none
  salesMA3 : Option ℚ := none
deriving DecidableEq, Repr

/-- The `j`-th covariate column of a frame. -/
def covCol (j : ℕ) (df : List RawRow) : List (Option ℚ) :=
  df.map (fun r => r.covs.getD j none)

/-- `Series.fillna(series.median())` at one cell, given the column's
non-missing values: when every value is missing the median is itself
missing and the fill is a no-op. -/
def fillOne (p : List ℚ) (v : Option ℚ) : Option ℚ :=
  if p.isEmpty then v else some (v.getD (medianQ p))

/-- Lines 28–42: global median imputation of the numeric columns and
`Is_Holiday.fillna(0)`. -/
def fillMissing (df : List RawRow) : List RawRow :=
  let pSales := presentVals (df.map (·.totalSales))
  let pQty := presentVals (df.map (·.quantitySold))
  let pPop := presentVals (df.map (·.onlinePopularity))
  let pCovs := (List.range 8).map (fun j => presentVals (covCol j df))
  df.map (fun r =>
    { r with
      totalSales := fillOne pSales r.totalSales
      quantitySold := fillOne pQty r.quantitySold
      onlinePopularity := fillOne pPop r.onlinePopularity
      covs := List.zipWith fillOne pCovs r.covs
      isHoliday := some (r.isHoliday.getD 0) })

/-- The `sort_values(by=["Brand", "Date"])` ordering of line 46. -/
def byBrandDate (a b : RawRow) : Prop :=
  a.brand < b.brand ∨ (a.brand = b.brand ∧ a.date ≤ b.date)

instance : DecidableRel byBrandDate := fun a b => by
  unfold byBrandDate; infer_instance

def sortBrandDate (df : List RawRow) : List RawRow :=
  df.insertionSort byBrandDate

/-- sklearn `LabelEncoder`: the classes are the sorted distinct values
and a value's code is its index there, i.e. the number of distinct
values strictly below it. -/
def labelEncode (vals : List ℕ) (v : ℕ) : ℕ :=
  ((sortedKeys vals).filter (fun c => c < v)).length

/-- Lines 49–53: stable integer codes for Category, Brand, Region. -/
def encodeCats (df : List RawRow) : List RawRow :=
  let cats := df.map (·.category)
  let brs := df.map (·.brand)
  let rgs := df.map (·.region)
  df.map (fun r =>
    { r with catEnc := labelEncode cats r.category,
             brandEnc := labelEncode brs r.brand,
             regEnc := labelEncode rgs r.region })

/-- `Series.ffill`, threading the last non-missing value. -/
def ffillCol : List (Option ℚ) → Option ℚ → List (Option ℚ)
  | [], _ => []
  | v :: t, prev =>
    let v' := if v.isSome then v else prev
    v' :: ffillCol t v'

/-- `Series.bfill` as a reversed forward fill. -/
def bfillCol (l : List (Option ℚ)) : List (Option ℚ) :=
  (ffillCol l.reverse none).reverse

/-- `rolling(3, min_periods=1).mean()` at index `i`: `skipna` mean of
the trailing window of (up to) three values. -/
def ma3At (sales : List (Option ℚ)) (i : ℕ) : Option ℚ :=
  aggMeanOpt ((sales.take (i + 1)).drop (i + 1 - 3))

/-- Lines 56–63 for one brand's (date-ordered) rows: lag-1 sales with
forward/backward fill, and the 3-period rolling mean whose remaining
missing values fall back to the same-row `Total_Sales`. -/
def addLagMA (rows : List RawRow) : List RawRow :=
  let sales := rows.map (·.totalSales)
  let lag := bfillCol (ffillCol (none :: sales.dropLast) none)
  let ma := (List.range rows.length).map (fun i => ma3At sales i)
  List.zipWith (fun r (p : Option ℚ × Option ℚ) =>
      { r with salesLag1 := p.1,
               salesMA3 := if p.2.isSome then p.2 else r.totalSales })
    rows (lag.zip ma)

/-- The per-brand `groupby("Brand")` feature engineering.  The frame is
(Brand, Date)-sorted at this point, so concatenating the brand groups
in brand order reproduces the frame's row order. -/
def addBrandFeatures (df : List RawRow) : List RawRow :=
  (groupByKey (fun r => r.brand) df).flatMap (fun g => addLagMA g.2)

/-- The per-column normalisation parameters of lines 74–76: the global
mean and the denominator `x.std() + 1e-6`.  `x.std()` (the `ddof=1`
sample standard deviation, an irrational square root) is the opaque
`stdFn` evaluated on the column's non-missing values. -/
def normParams (stdFn : List ℚ → ℚ) (col : List (Option ℚ)) : ℚ × ℚ :=
  (meanQ (presentVals col), stdFn (presentVals col) + 1 / 1000000)

/-- `(x - x.mean()) / (x.std() + 1e-6)` at one cell (missing stays
missing, as in pandas arithmetic). -/
def applyNorm (p : ℚ × ℚ) (v : Option ℚ) : Option ℚ :=
  v.map (fun x => (x - p.1) / p.2)

/-- A whole column normalised with its own global parameters. -/
def normColVals (stdFn : List ℚ → ℚ) (col : List (Option ℚ)) : List (Option ℚ) :=
  col.map (applyNorm (normParams stdFn col))

/-- Lines 65–76: normalise the twelve listed columns — and only those;
`Total_Sales` is exempt, and so are the flags `Promotion`,
`Discount_Percentage`, `Is_Holiday` and the categorical codes. -/
def normalizeDf (stdFn : List ℚ → ℚ) (df : List RawRow) : List RawRow :=
  let pQty := normParams stdFn (df.map (·.quantitySold))
  let pPop := normParams stdFn (df.map (·.onlinePopularity))
  let pLag := normParams stdFn (df.map (·.salesLag1))
  let pMa := normParams stdFn (df.map (·.salesMA3))
  let pCovs := (List.range 8).map (fun j => normParams stdFn (covCol j df))
  df.map (fun r =>
    { r with
      quantitySold := applyNorm pQty r.quantitySold
      onlinePopularity := applyNorm pPop r.onlinePopularity
      salesLag1 := applyNorm pLag r.salesLag1
      salesMA3 := applyNorm pMa r.salesMA3
      covs := List.zipWith applyNorm pCovs r.covs })

/-- A row of the aggregated `processed_sales.csv`. -/
structure AggRow where
  category : ℕ
  brand : ℕ
  date : Int
  totalSales : ℚ
  quantitySold : ℚ
  onlinePopularity : Option ℚ
  covs : List (Option ℚ)
  promotion : Option ℚ
  discountPercentage : Option ℚ
  isHoliday : Option ℚ
  salesLag1 : Option ℚ
  salesMA3 : Option ℚ
  catEnc : ℕ
  brandEnc : ℕ
  regEnc : ℕ
deriving DecidableEq, Repr

/-- The `groupby(["Category", "Brand", "Date"])` key, ordered
lexicographically as pandas sorts group keys. -/
def aggKey (r : RawRow) : ℕ ×ₗ ℕ ×ₗ ℤ :=
  toLex (r.category, toLex (r.brand, r.date))

/-- Lines 78–104: aggregate to one row per (Category, Brand, Date) —
sums for the additive quantities, `skipna` means for the rate-like
columns, `first` for the categorical codes. -/
def preprocessAgg (df : List RawRow) : List AggRow :=
  (groupByKey aggKey df).map (fun grp =>
    { category := (ofLex grp.1).1
      brand := (ofLex (ofLex grp.1).2).1
      date := (ofLex (ofLex grp.1).2).2
      totalSales := (presentVals (grp.2.map (·.totalSales))).sum
      quantitySold := (presentVals (grp.2.map (·.quantitySold))).sum
      onlinePopularity := aggMeanOpt (grp.2.map (·.onlinePopularity))
      covs := (List.range 8).map (fun j => aggMeanOpt (covCol j grp.2))
      promotion := aggMeanOpt (grp.2.map (·.promotion))
      discountPercentage := aggMeanOpt (grp.2.map (·.discountPercentage))
      isHoliday := aggMeanOpt (grp.2.map (·.isHoliday))
      salesLag1 := aggMeanOpt (grp.2.map (·.salesLag1))
      salesMA3 := aggMeanOpt (grp.2.map (·.salesMA3))
      catEnc := (grp.2.map (·.catEnc)).headD 0
      brandEnc := (grp.2.map (·.brandEnc)).headD 0
      regEnc := (grp.2.map (·.regEnc)).headD 0 })

/-- The whole in-memory transformation of `preprocess_data`, in source
order: impute, sort, encode, per-brand lag/rolling features,
normalise, aggregate. -/
def preprocessFrame (stdFn : List ℚ → ℚ) (df : List RawRow) : List AggRow :=
  preprocessAgg (normalizeDf stdFn (addBrandFeatures (encodeCats (sortBrandDate (fillMissing df)))))

/-- Entry point of `data_preprocessing.py`: `none` input models the
missing raw file (the `FileNotFoundError` of line 21). -/
def preprocess_data (stdFn : List ℚ → ℚ) (input : Option (List RawRow)) :
    Except String (List AggRow) :=
  match input with
  | none => .error "brand_sales_dataset.csv not found. Generate raw data first."
  | some df => .ok (preprocessFrame stdFn df)

/-- The filter selecting one brand's rows (the group body that
`df.groupby("Brand")` hands to the loop for brand `b`). -/
def rowsOfBrand (b : ℕ) (df : List SRow) : List SRow :=
  df.filter (fun r => r.brand = b)

/-! ## Concrete fixtures for the closed instances -/

/-- Stand-in for the opaque `np.sqrt` in closed instances. -/
def sqrt0 : ℚ → ℚ := id

/-- Stand-in for the opaque fitted Prophet model. -/
def fit0 : List PDRow → List ℕ → Int → ℚ × ℚ × ℚ := fun _ _ _ => (0, 0, 0)

/-- Stand-in for the opaque LSTM trainer. -/
def trainModel0 : List (List (List ℚ)) → List ℚ → List (List ℚ) → ℚ := fun _ _ _ => 0

/-- A healthy processed row: target `s`, full regressor set present. -/
def mkSRow (d : Int) (b : ℕ) (s : ℚ) : SRow :=
  { date := d, brand := b, totalSales := some s, onlinePopularity := some 1,
    regs := List.replicate 11 (some 0) }

/-- One brand, five consecutive daily rows. -/
def dfSmall : List SRow := (List.range 5).map (fun i => mkSRow i 0 (i + 1))

/-- One brand, 28 consecutive daily rows (enough for the LSTM guards). -/
def dfLstm : List SRow := (List.range 28).map (fun i => mkSRow i 0 (i + 1))

/-- `dfSmall` plus a malformed second brand with only two rows. -/
def dfMixed : List SRow := dfSmall ++ (List.range 2).map (fun i => mkSRow i 1 1)

/-- One brand whose `Trend_Score` varies while every extra regressor is
constant. -/
def dfVaried : List SRow :=
  (List.range 5).map (fun i => { mkSRow i 0 (i + 1) with onlinePopularity := some (i : ℚ) })

/-- A default `PDRow` for `headD`. -/
def pd0 : PDRow := { ds := 0, y := none, cols := [] }

/-- A healthy raw-table row for the preprocessing instances. -/
def mkRawRow (d : Int) (c b g : ℕ) (s : ℚ) : RawRow :=
  { date := d, category := c, brand := b, region := g, totalSales := some s,
    quantitySold := some 1, onlinePopularity := some 1,
    covs := List.replicate 8 (some 1), promotion := some 0,
    discountPercentage := some 0, isHoliday := some 0 }

/-- A three-row raw frame over two (category, brand) pairs. -/
def dfRaw : List RawRow := [mkRawRow 0 0 0 0 5, mkRawRow 1 0 0 0 7, mkRawRow 0 1 1 1 2]

/-! ## Lemmas about the orchestration loop -/

theorem mem_insKey {κ : Type*} [LinearOrder κ] (d k : κ) (l : List κ) :
    k ∈ insKey d l ↔ k = d ∨ k ∈ l := by
  induction l with
  | nil => simp [insKey]
  | cons x xs ih =>
    simp only [insKey]
    split
    · simp [List.mem_cons]
    · split
      · rename_i hlt heq
        subst heq
        simp only [List.mem_cons]
        constructor
        · tauto
        · rintro (h | h | h) <;> simp [h]
      · simp only [List.mem_cons, ih]
        tauto

theorem sorted_insKey {κ : Type*} [LinearOrder κ] (d : κ) (l : List κ)
    (h : l.Sorted (· < ·)) : (insKey d l).Sorted (· < ·) := by
  induction l with
  | nil => simp [insKey]
  | cons x xs ih =>
    have hx := List.sorted_cons.mp h
    simp only [insKey]
    split
    · rename_i hdx
      refine List.sorted_cons.mpr ⟨fun b hb => ?_, h⟩
      rcases List.mem_cons.mp hb with rfl | hb
      · exact hdx
      · exact lt_trans hdx (hx.1 b hb)
    · rename_i hndx
      split
      · exact h
      · rename_i hne
        have hxd : x < d := lt_of_le_of_ne (le_of_not_lt hndx) (Ne.symm hne)
        refine List.sorted_cons.mpr ⟨fun b hb => ?_, ih hx.2⟩
        rcases (mem_insKey d b xs).mp hb with rfl | hb
        · exact hxd
        · exact hx.1 b hb

theorem sorted_sortedKeys {κ : Type*} [LinearOrder κ] (l : List κ) :
    (sortedKeys l).Sorted (· < ·) := by
  induction l with
  | nil => simp [sortedKeys]
  | cons x xs ih => exact sorted_insKey x _ ih

theorem mem_sortedKeys {κ : Type*} [LinearOrder κ] (k : κ) (l : List κ) :
    k ∈ sortedKeys l ↔ k ∈ l := by
  induction l with
  | nil => simp [sortedKeys]
  | cons x xs ih =>
    simp only [sortedKeys, List.foldr_cons, List.mem_cons]
    rw [show xs.foldr insKey [] = sortedKeys xs from rfl] at *
    rw [mem_insKey, ih]

theorem nodup_sortedKeys {κ : Type*} [LinearOrder κ] (l : List κ) :
    (sortedKeys l).Nodup :=
  (sorted_sortedKeys l).nodup

/-- Two strictly sorted lists with the same members are equal. -/
theorem sorted_lt_ext {κ : Type*} [LinearOrder κ] :
    ∀ (l₁ l₂ : List κ), l₁.Sorted (· < ·) → l₂.Sorted (· < ·) →
      (∀ k, k ∈ l₁ ↔ k ∈ l₂) → l₁ = l₂ := by
  intro l₁
  induction l₁ with
  | nil =>
    intro l₂ _ _ hmem
    cases l₂ with
    | nil => rfl
    | cons y ys => exact absurd ((hmem y).mpr (by simp)) (by simp)
  | cons x xs ih =>
    intro l₂ h₁ h₂ hmem
    cases l₂ with
    | nil => exact absurd ((hmem x).mp (by simp)) (by simp)
    | cons y ys =>
      have hx₁ := List.sorted_cons.mp h₁
      have hy₂ := List.sorted_cons.mp h₂
      have hxy : x = y := by
        rcases List.mem_cons.mp ((hmem x).mp (by simp)) with h | h
        · exact h
        · rcases List.mem_cons.mp ((hmem y).mpr (by simp)) with h' | h'
          · exact h'.symm
          · exact absurd (lt_trans (hx₁.1 y h') (hy₂.1 x h)) (lt_irrefl x)
      subst hxy
      have : xs = ys := by
        refine ih ys hx₁.2 hy₂.2 (fun k => ?_)
        constructor
        · intro hk
          rcases List.mem_cons.mp ((hmem k).mp (List.mem_cons_of_mem _ hk)) with h | h
          · exact absurd (h ▸ hx₁.1 k hk) (lt_irrefl x)
          · exact h
        · intro hk
          rcases List.mem_cons.mp ((hmem k).mpr (List.mem_cons_of_mem _ hk)) with h | h
          · exact absurd (h ▸ hy₂.1 k hk) (lt_irrefl x)
          · exact h
      rw [this]

/-- `sortedKeys` commutes with filtering by a key predicate. -/
theorem sortedKeys_filter {κ : Type*} [LinearOrder κ] (p : κ → Bool) (l : List κ) :
    sortedKeys (l.filter p) = (sortedKeys l).filter p := by
  refine sorted_lt_ext _ _ (sorted_sortedKeys _)
    ((sorted_sortedKeys l).filter p) (fun k => ?_)
  rw [mem_sortedKeys, List.mem_filter, List.mem_filter, mem_sortedKeys]



theorem foldl_loopStep_error {F : Type*}
    (proc : ℕ → List SRow → Except String (Option (List F × MetRow))) (e : String) :
    ∀ gs : List (ℕ × List SRow), gs.foldl (loopStep proc) (.error e) = .error e := by
  intro gs
  induction gs with
  | nil => rfl
  | cons g gs ih => rw [List.foldl_cons, show loopStep proc (.error e) g = .error e from rfl, ih]

/-- Normal form of a run that did not raise: the forecast rows are the
concatenation of the successful brands' blocks, the metrics rows are
the successful brands' metric rows, in brand order. -/
theorem foldl_loopStep_ok_eq {F : Type*}
    (proc : ℕ → List SRow → Except String (Option (List F × MetRow))) :
    ∀ (gs : List (ℕ × List SRow)) (acc out : List F × List MetRow),
      gs.foldl (loopStep proc) (.ok acc) = .ok out →
      out = (acc.1 ++ gs.flatMap (fun g =>
               match proc g.1 g.2 with
               | .ok (some (fs, _)) => fs
               | _ => []),
             acc.2 ++ gs.filterMap (fun g =>
               match proc g.1 g.2 with
               | .ok (some (_, m)) => some m
               | _ => none)) := by
  intro gs
  induction gs with
  | nil =>
    intro acc out h
    simp only [List.foldl_nil, Except.ok.injEq] at h
    simp [← h]
  | cons g gs ih =>
    intro acc out h
    rw [List.foldl_cons] at h
    simp only [List.flatMap_cons, List.filterMap_cons]
    cases hp : proc g.1 g.2 with
    | error e =>
      rw [show loopStep proc (.ok acc) g = .error e by simp only [loopStep, hp],
        foldl_loopStep_error] at h
      exact absurd h (by simp)
    | ok o =>
      cases o with
      | none =>
        rw [show loopStep proc (.ok acc) g = .ok acc by simp only [loopStep, hp]] at h
        rw [ih acc out h]
        simp
      | some p =>
        rw [show loopStep proc (.ok acc) g = .ok (acc.1 ++ p.1, acc.2 ++ [p.2]) by
          simp only [loopStep, hp]] at h
        rw [ih _ out h]
        simp

/-- When no brand raises, the loop completes with an `.ok` result. -/
theorem foldl_loopStep_all_ok {F : Type*}
    (proc : ℕ → List SRow → Except String (Option (List F × MetRow))) :
    ∀ gs : List (ℕ × List SRow), (∀ g ∈ gs, (proc g.1 g.2).isOk = true) →
      ∀ acc, ∃ out, gs.foldl (loopStep proc) (.ok acc) = .ok out := by
  intro gs
  induction gs with
  | nil => exact fun _ acc => ⟨acc, rfl⟩
  | cons g gs ih =>
    intro hok acc
    have hg := hok g (List.mem_cons_self g gs)
    rw [List.foldl_cons]
    cases hp : proc g.1 g.2 with
    | error e => rw [hp] at hg; exact absurd hg (by simp [Except.isOk, Except.toBool])
    | ok o =>
      cases o with
      | none =>
        rw [show loopStep proc (.ok acc) g = .ok acc by simp only [loopStep, hp]]
        exact ih (fun x hx => hok x (List.mem_cons_of_mem _ hx)) acc
      | some p =>
        rw [show loopStep proc (.ok acc) g = .ok (acc.1 ++ p.1, acc.2 ++ [p.2]) by
          simp only [loopStep, hp]]
        exact ih (fun x hx => hok x (List.mem_cons_of_mem _ hx)) _

theorem runForecastLoop_ok_of_all_ok {F : Type*}
    (proc : ℕ → List SRow → Except String (Option (List F × MetRow))) (df : List SRow)
    (h : ∀ g ∈ groupByKey (fun r => r.brand) df, (proc g.1 g.2).isOk = true) :
    ∃ out, runForecastLoop proc df = .ok out :=
  foldl_loopStep_all_ok proc _ h ([], [])

theorem groupByKey_filter_ne {α : Type*} {κ : Type*} [LinearOrder κ]
    (key : α → κ) (l : List α) (b : κ) :
    groupByKey key (l.filter (fun a => key a ≠ b))
      = ((sortedKeys (l.map key)).filter (fun k => k ≠ b)).map
          (fun k => (k, l.filter (fun a => key a = k))) := by
  unfold groupByKey
  have hmap : (l.filter (fun a => key a ≠ b)).map key
      = (l.map key).filter (fun k => k ≠ b) := by
    rw [List.filter_map]; rfl
  rw [hmap, sortedKeys_filter]
  refine List.map_congr_left (fun k hk => ?_)
  have hkb : k ≠ b := by
    have := (List.mem_filter.mp hk).2
    simpa using this
  congr 1
  rw [List.filter_filter]
  refine List.filter_congr (fun a _ => ?_)
  by_cases h : key a = k
  · simp [h, hkb]
  · simp [h]

/-- Dropping the elements on which the step function is the identity
does not change a fold. -/
theorem foldl_skip_filter {α : Type*} {β : Type*} (f : β → α → β) (p : α → Bool) :
    ∀ l : List α, (∀ acc, ∀ a ∈ l, p a = false → f acc a = acc) →
      ∀ init, l.foldl f init = (l.filter p).foldl f init := by
  intro l
  induction l with
  | nil => intro _ _; simp
  | cons a l ih =>
    intro hid init
    by_cases h : p a
    · rw [List.foldl_cons, List.filter_cons, if_pos h, List.foldl_cons]
      exact ih (fun acc x hx hpx => hid acc x (List.mem_cons_of_mem _ hx) hpx) _
    · rw [List.foldl_cons, hid init a (List.mem_cons_self a l) (by simpa using h),
        List.filter_cons, if_neg (by simpa using h)]
      exact ih (fun acc x hx hpx => hid acc x (List.mem_cons_of_mem _ hx) hpx) _

/-- Skipping a brand changes nothing for the others: the run on the
whole table equals the run on the table with that brand's rows
removed. -/
theorem runForecastLoop_skip {F : Type*}
    (proc : ℕ → List SRow → Except String (Option (List F × MetRow)))
    (df : List SRow) (b : ℕ) (h : proc b (rowsOfBrand b df) = .ok none) :
    runForecastLoop proc df
      = runForecastLoop proc (df.filter (fun r => r.brand ≠ b)) := by
  unfold runForecastLoop
  rw [groupByKey_filter_ne]
  have hfm : ((sortedKeys (df.map (fun r => r.brand))).filter (fun k => k ≠ b)).map
        (fun k => (k, df.filter (fun a => a.brand = k)))
      = ((sortedKeys (df.map (fun r => r.brand))).map
          (fun k => (k, df.filter (fun a => a.brand = k)))).filter (fun g => g.1 ≠ b) := by
    rw [List.filter_map]; rfl
  rw [hfm]
  unfold groupByKey
  refine foldl_skip_filter _ _ _ (fun acc a ha hpa => ?_) _
  obtain ⟨k, _, rfl⟩ := List.mem_map.mp ha
  have hkb : k = b := by simpa using hpa
  subst hkb
  cases acc with
  | error e => rfl
  | ok a =>
    show loopStep proc (.ok a) _ = _
    unfold loopStep
    rw [show df.filter (fun r => r.brand = k) = rowsOfBrand k df from rfl, h]

/-! ## Lemmas about the per-brand pipelines -/

theorem foldl_max_le (l : List Int) :
    ∀ init : Int, init ≤ l.foldl max init ∧ ∀ x ∈ l, x ≤ l.foldl max init := by
  induction l with
  | nil => intro init; simp
  | cons a l ih =>
    intro init
    refine ⟨le_trans (le_max_left init a) (ih (max init a)).1, fun x hx => ?_⟩
    rcases List.mem_cons.mp hx with rfl | hx
    · exact le_trans (le_max_right init x) (ih (max init x)).1
    · exact (ih (max init a)).2 x hx

theorem le_listMaxI (l : List Int) : ∀ x ∈ l, x ≤ listMaxI l :=
  (foldl_max_le l (l.headD 0)).2

theorem prophetAgg_ds (rows : List SRow) :
    (prophetAgg rows).map (·.ds) = sortedKeys (rows.map (fun r => r.date)) := by
  unfold prophetAgg groupByKey
  rw [List.map_map, List.map_map]
  exact List.map_id _

theorem lstmAgg_dates (rows : List SRow) :
    (lstmAgg rows).map (·.1) = sortedKeys (rows.map (fun r => r.date)) := by
  unfold lstmAgg lstmAggRaw groupByKey
  rw [List.map_map, List.map_map, List.map_map]
  exact List.map_id _

theorem prophetCleaned_ds_pairwise (rows : List SRow) :
    (prophetCleaned rows).Pairwise (fun a c => a.ds < c.ds) := by
  have h := sorted_sortedKeys (rows.map (fun r => r.date))
  rw [← prophetAgg_ds] at h
  exact List.Pairwise.sublist (List.filter_sublist _) (List.pairwise_map.mp h)

theorem prophetTrain_ds_pairwise (rows : List SRow) :
    (prophetTrain rows).Pairwise (fun a c => a.ds < c.ds) :=
  List.Pairwise.sublist (List.take_sublist _ _) (prophetCleaned_ds_pairwise rows)

theorem prophetTrain_lt_test (rows : List SRow) :
    ∀ a ∈ prophetTrain rows, ∀ c ∈ prophetTest rows, a.ds < c.ds := by
  have h := prophetCleaned_ds_pairwise rows
  rw [← List.take_append_drop (prophetTrainSize (prophetCleaned rows).length)
    (prophetCleaned rows)] at h
  exact (List.pairwise_append.mp h).2.2

theorem prophetFutureDates_sorted (rows : List SRow) :
    (prophetFutureDates rows).Sorted (· < ·) := by
  unfold prophetFutureDates
  refine List.pairwise_append.mpr ⟨?_, ?_, ?_⟩
  · exact List.pairwise_map.mpr (prophetTrain_ds_pairwise rows)
  · refine List.pairwise_map.mpr ?_
    exact (List.pairwise_lt_range 30).imp (fun h => by omega)
  · intro a ha c hc
    have h1 : a ≤ listMaxI ((prophetTrain rows).map (·.ds)) := le_listMaxI _ a ha
    obtain ⟨i, _, rfl⟩ := List.mem_map.mp hc
    omega

theorem prophetFutureDates_nodup (rows : List SRow) :
    (prophetFutureDates rows).Nodup :=
  (prophetFutureDates_sorted rows).nodup

/-- Shape of a successful prophet brand: the metrics row carries the
brand, every forecast row carries the brand, and the emitted dates are
exactly the future-frame dates. -/
theorem prophetBrand_shape {sqrtQ : ℚ → ℚ} {fit : List PDRow → List ℕ → Int → ℚ × ℚ × ℚ}
    {b : ℕ} {rows : List SRow} {fs : List PFRow} {m : MetRow}
    (h : prophetBrand sqrtQ fit b rows = .ok (some (fs, m))) :
    m.brand = b ∧ (∀ r ∈ fs, r.brand = b) ∧ fs.map (·.date) = prophetFutureDates rows ∧
      3 ≤ (prophetCleaned rows).length := by
  unfold prophetBrand at h
  split at h
  · exact absurd h (by simp)
  · split at h
    · exact absurd h (by simp)
    · split at h
      · exact absurd h (by simp)
      · split at h
        · exact absurd h (by simp)
        · rename_i h3 _ _ _
          simp only [Except.ok.injEq, Option.some.injEq, Prod.mk.injEq] at h
          obtain ⟨hfs, hm⟩ := h
          refine ⟨by rw [← hm], ?_, ?_, by omega⟩
          · intro r hr
            rw [← hfs] at hr
            obtain ⟨d, _, rfl⟩ := List.mem_map.mp hr
            rfl
          · rw [← hfs, List.map_map]
            exact List.map_id _

/-- Shape of a successful LSTM brand: 30 forecast rows, dated on the
30 consecutive days after the brand's last observed date. -/
theorem lstmBrand_shape {sqrtQ : ℚ → ℚ}
    {trainModel : List (List (List ℚ)) → List ℚ → List (List ℚ) → ℚ}
    {b : ℕ} {rows : List SRow} {fs : List LFRow} {m : MetRow}
    (h : lstmBrand sqrtQ trainModel b rows = .ok (some (fs, m))) :
    m.brand = b ∧ (∀ r ∈ fs, r.brand = b) ∧ fs.map (·.date) = lstmFutureDates rows ∧
      fs.length = 30 ∧ 20 ≤ (lstmWindows rows).length := by
  unfold lstmBrand at h
  split at h
  · exact absurd h (by simp)
  · split at h
    · exact absurd h (by simp)
    · split at h
      · exact absurd h (by simp)
      · rename_i h1 h2 h3
        simp only [Except.ok.injEq, Option.some.injEq, Prod.mk.injEq] at h
        obtain ⟨hfs, hm⟩ := h
        refine ⟨by rw [← hm], ?_, ?_, by rw [← hfs]; simp, by omega⟩
        · intro r hr
          rw [← hfs] at hr
          obtain ⟨d, _, rfl⟩ := List.mem_map.mp hr
          rfl
        · rw [← hfs, List.map_map]
          rfl

theorem lstmFutureDates_gt_observed (rows : List SRow) :
    ∀ d ∈ lstmFutureDates rows, ∀ s ∈ rows, s.date < d := by
  intro d hd s hs
  obtain ⟨i, _, rfl⟩ := List.mem_map.mp hd
  have h1 : s.date ∈ (lstmAgg rows).map (·.1) := by
    rw [lstmAgg_dates, mem_sortedKeys]
    exact List.mem_map_of_mem _ hs
  have h2 := le_listMaxI _ _ h1
  omega

theorem lstmFutureDates_sorted (rows : List SRow) :
    (lstmFutureDates rows).Sorted (· < ·) := by
  refine List.pairwise_map.mpr ?_
  exact (List.pairwise_lt_range 30).imp (fun h => by omega)

/-! ## Skip guards skip, raises raise, clean brands succeed -/

theorem prophetBrand_skip {sqrtQ : ℚ → ℚ} {fit : List PDRow → List ℕ → Int → ℚ × ℚ × ℚ}
    {b : ℕ} {rows : List SRow}
    (h : (prophetCleaned rows).length < 3 ∨ (prophetTrain rows).length < 2
      ∨ ((prophetTrain rows).any fun r => r.y.isNone || r.cols.any (·.isNone)) = true
      ∨ (prophetTest rows).isEmpty = true) :
    prophetBrand sqrtQ fit b rows = .ok none := by
  unfold prophetBrand
  split_ifs with h1 h2 h3 h4
  any_goals rfl
  all_goals
    exfalso
    rcases h with h | h | h | h
    · exact h1 h
    · exact h2 (Or.inl h)
    · exact h2 (Or.inr h)
    · exact h3 h

theorem lstmBrand_skip {sqrtQ : ℚ → ℚ}
    {trainModel : List (List (List ℚ)) → List ℚ → List (List ℚ) → ℚ}
    {b : ℕ} {rows : List SRow}
    (h : (lstmAgg rows).length < seqLength + 1 ∨ (lstmWindows rows).length < 20) :
    lstmBrand sqrtQ trainModel b rows = .ok none := by
  unfold lstmBrand
  split_ifs with h1 h2 h3
  any_goals rfl
  all_goals
    exfalso
    rcases h with h | h
    · exact h1 h
    · exact h2 h

/-- A prophet brand that passes all guards and whose test split has no
missing admitted regressor succeeds. -/
theorem prophetBrand_ok_some (sqrtQ : ℚ → ℚ) (fit : List PDRow → List ℕ → Int → ℚ × ℚ × ℚ)
    (b : ℕ) (rows : List SRow)
    (h1 : ¬ (prophetCleaned rows).length < 3)
    (h2 : ¬ ((prophetTrain rows).length < 2
      ∨ ((prophetTrain rows).any fun r => r.y.isNone || r.cols.any (·.isNone)) = true))
    (h3 : ¬ (prophetTest rows).isEmpty = true)
    (h4 : prophetPredictRaises rows = false) :
    ∃ fs m, prophetBrand sqrtQ fit b rows = .ok (some (fs, m)) := by
  unfold prophetBrand
  rw [if_neg h1, if_neg h2, if_neg h3, if_neg (by simp [h4])]
  exact ⟨_, _, rfl⟩

/-- An LSTM brand that passes both guards and whose feature matrix has
no missing cell succeeds. -/
theorem lstmBrand_ok_some (sqrtQ : ℚ → ℚ)
    (trainModel : List (List (List ℚ)) → List ℚ → List (List ℚ) → ℚ)
    (b : ℕ) (rows : List SRow)
    (h1 : ¬ (lstmAgg rows).length < seqLength + 1)
    (h2 : ¬ (lstmWindows rows).length < 20)
    (h3 : lstmHasMissing rows = false) :
    ∃ fs m, lstmBrand sqrtQ trainModel b rows = .ok (some (fs, m)) := by
  unfold lstmBrand
  rw [if_neg h1, if_neg h2, if_neg (by simp [h3])]
  exact ⟨_, _, rfl⟩

/-! ## Rollout lemmas -/

theorem rolloutN_length (model : List (List ℚ) → ℚ) (scaled : List (List ℚ)) (n : ℕ) :
    (rolloutN model scaled n).length = scaled.length + n := by
  induction n with
  | zero => rfl
  | succ n ih => simp only [rolloutN, rolloutStep]; simp [ih]; omega

theorem rolloutN_frozen (model : List (List ℚ) → ℚ) (scaled : List (List ℚ)) :
    ∀ n : ℕ,
      (∀ row ∈ (rolloutN model scaled n).drop scaled.length,
          row.tail = ((scaled.getLast?).getD []).tail)
        ∧ (((rolloutN model scaled n).getLast?).getD []).tail
            = ((scaled.getLast?).getD []).tail := by
  intro n
  induction n with
  | zero =>
    refine ⟨fun row hrow => ?_, rfl⟩
    rw [show rolloutN model scaled 0 = scaled from rfl, List.drop_length] at hrow
    exact absurd hrow (by simp)
  | succ n ih =>
    obtain ⟨ih1, ih2⟩ := ih
    constructor
    · intro row hrow
      simp only [rolloutN, rolloutStep] at hrow
      rw [List.drop_append_eq_append_drop] at hrow
      rcases List.mem_append.mp hrow with h | h
      · exact ih1 row h
      · have hlen : scaled.length - (rolloutN model scaled n).length = 0 := by
          rw [rolloutN_length]; omega
        rw [hlen] at h
        simp only [List.drop_zero, List.mem_singleton] at h
        rw [h]
        simpa using ih2
    · simp only [rolloutN, rolloutStep]
      rw [List.getLast?_concat]
      simpa using ih2

/-! ## MinMax scaler lemmas -/

theorem mmParams_length (w : ℕ) (M : List (List ℚ)) : (mmParams w M).length = w := by
  simp [mmParams]

theorem mmInvRow_mmScaleRow : ∀ (ps : List (ℚ × ℚ)) (r : List ℚ), r.length = ps.length →
    mmInvRow ps (mmScaleRow ps r) = r := by
  intro ps
  induction ps with
  | nil =>
    intro r hr
    rw [List.length_nil] at hr
    rw [List.eq_nil_of_length_eq_zero hr]
    rfl
  | cons p ps ih =>
    intro r hr
    cases r with
    | nil => simp at hr
    | cons x r =>
      simp only [mmScaleRow, mmInvRow, List.zipWith_cons_cons]
      have hd : (if p.2 = 0 then (1 : ℚ) else p.2) ≠ 0 := by
        split
        · exact one_ne_zero
        · assumption
      rw [div_mul_cancel₀ _ hd, sub_add_cancel]
      congr 1
      exact ih r (by simpa using hr)

/-! ## Distinct-value (`nunique`) lemmas -/

theorem exists_ne_of_one_lt_nuniqueQ (col : List (Option ℚ)) (h : 1 < nuniqueQ col) :
    ∃ x ∈ presentVals col, ∃ y ∈ presentVals col, x ≠ y := by
  unfold nuniqueQ at h
  rcases hd : (col.filterMap id).dedup with _ | ⟨a, t⟩
  · rw [hd] at h; simp at h
  · rcases t with _ | ⟨c, t⟩
    · rw [hd] at h; simp at h
    · have hnd := List.nodup_dedup (col.filterMap id)
      rw [hd] at hnd
      have hac : a ≠ c := by
        intro e
        exact (List.nodup_cons.mp hnd).1 (e ▸ List.mem_cons_self c t)
      refine ⟨a, ?_, c, ?_, hac⟩
      · exact List.mem_dedup.mp (by unfold presentVals; rw [hd]; simp)
      · exact List.mem_dedup.mp (by unfold presentVals; rw [hd]; simp)

theorem nuniqueQ_le_one_of_const (col : List (Option ℚ)) (c : ℚ)
    (h : ∀ x ∈ presentVals col, x = c) : nuniqueQ col ≤ 1 := by
  by_contra hlt
  push_neg at hlt
  obtain ⟨x, hx, y, hy, hxy⟩ := exists_ne_of_one_lt_nuniqueQ col hlt
  exact hxy ((h x hx).trans (h y hy).symm)

/-! ## Normalisation lemmas -/

theorem sum_map_sub (p : List ℚ) (m : ℚ) :
    (p.map (fun x => x - m)).sum = p.sum - p.length * m := by
  induction p with
  | nil => simp
  | cons x p ih =>
    simp only [List.map_cons, List.sum_cons, ih, List.length_cons]
    push_cast
    ring

theorem presentVals_normColVals (stdFn : List ℚ → ℚ) (col : List (Option ℚ)) :
    presentVals (normColVals stdFn col)
      = (presentVals col).map
          (fun x => (x - (normParams stdFn col).1) / (normParams stdFn col).2) := by
  unfold presentVals normColVals applyNorm
  rw [List.map_filterMap, List.filterMap_map]
  rfl

/-- Every normalised column sums to zero: subtracting the global mean
centres the column exactly. -/
theorem sum_normColVals (stdFn : List ℚ → ℚ) (col : List (Option ℚ)) :
    (presentVals (normColVals stdFn col)).sum = 0 := by
  rw [presentVals_normColVals]
  simp only [div_eq_mul_inv]
  rw [List.sum_map_mul_right, sum_map_sub]
  rcases eq_or_ne ((presentVals col).length : ℚ) 0 with h0 | h0
  · have he : presentVals col = [] := List.length_eq_zero.mp (by exact_mod_cast h0)
    simp [he, normParams, meanQ]
  · have : (presentVals col).length * (normParams stdFn col).1 = (presentVals col).sum := by
      unfold normParams meanQ
      field_simp
    rw [this]
    simp

/-! ## Preprocessing lemmas -/

theorem aggKey_unlex_injective :
    Function.Injective (fun k : ℕ ×ₗ ℕ ×ₗ ℤ =>
      ((ofLex k).1, (ofLex (ofLex k).2).1, (ofLex (ofLex k).2).2)) := by
  intro k1 k2 h
  simp only [Prod.mk.injEq] at h
  obtain ⟨h1, h2, h3⟩ := h
  have h23 : ofLex (ofLex k1).2 = ofLex (ofLex k2).2 := Prod.ext h2 h3
  have h2' : (ofLex k1).2 = (ofLex k2).2 := ofLex.injective h23
  exact ofLex.injective (Prod.ext h1 h2')

/-- The aggregation emits pairwise distinct (Category, Brand, Date)
keys. -/
theorem preprocessAgg_keys_nodup (df : List RawRow) :
    ((preprocessAgg df).map (fun r => (r.category, r.brand, r.date))).Nodup := by
  unfold preprocessAgg groupByKey
  rw [List.map_map, List.map_map]
  exact List.Nodup.map aggKey_unlex_injective (nodup_sortedKeys _)

/-- Every input row's key is represented in the aggregated output. -/
theorem preprocessAgg_covers (df : List RawRow) :
    ∀ r ∈ df, (r.category, r.brand, r.date)
      ∈ (preprocessAgg df).map (fun a => (a.category, a.brand, a.date)) := by
  intro r hr
  unfold preprocessAgg groupByKey
  rw [List.map_map, List.map_map]
  refine List.mem_map.mpr ⟨aggKey r, ?_, rfl⟩
  rw [mem_sortedKeys]
  exact List.mem_map_of_mem _ hr

/-! ## Generic matrix round trip -/

theorem lstmFeatureMatrix_row_length (rows : List SRow) :
    ∀ r ∈ lstmFeatureMatrix rows, r.length = 11 := by
  intro r hr
  unfold lstmFeatureMatrix lstmAgg lstmAggRaw at hr
  rw [List.map_map, List.map_map] at hr
  obtain ⟨g, _, rfl⟩ := List.mem_map.mp hr
  simp [lstmRegIdx]

theorem mm_matrix_roundtrip (w : ℕ) (M : List (List ℚ)) (hw : ∀ r ∈ M, r.length = w) :
    (M.map (mmScaleRow (mmParams w M))).map (mmInvRow (mmParams w M)) = M := by
  rw [List.map_map]
  have hpt : ∀ r ∈ M, (mmInvRow (mmParams w M) ∘ mmScaleRow (mmParams w M)) r = id r := by
    intro r hr
    simp only [Function.comp_apply, id_eq]
    exact mmInvRow_mmScaleRow _ r (by rw [hw r hr, mmParams_length])
  rw [List.map_congr_left hpt, List.map_id]

/-! ## Claims -/

/-- **C2**: during the Sequence Forecaster's 30-step recursive rollout
only the target (sales) feature changes from step to step: every
synthetic row appended to the running series carries, in all non-target
positions, exactly the scaled feature values of the last actually
observed row. -/
theorem C2_rollout_freezes_features (model : List (List ℚ) → ℚ) (scaled : List (List ℚ)) :
    ∀ row ∈ (rolloutN model scaled 30).drop scaled.length,
      row.tail = ((scaled.getLast?).getD []).tail :=
  (rolloutN_frozen model scaled 30).1

theorem C2_witness :
    (((rolloutN (fun _ => (1 : ℚ)/2) [[1, 2], [3, 4]] 30).drop 2).headD []).tail = [4] := by
  have h := C2_rollout_freezes_features (fun _ => (1 : ℚ)/2) [[1, 2], [3, 4]]
    (((rolloutN (fun _ => (1 : ℚ)/2) [[1, 2], [3, 4]] 30).drop 2).headD [])
    (by with_unfolding_all decide)
  have h2 : (((([[1, 2], [3, 4]] : List (List ℚ)).getLast?).getD []).tail : List ℚ) = [4] := by
    with_unfolding_all decide
  exact h.trans h2

/-- **C3**: every regressor admitted into the Seasonal Forecaster's
model (the trend score is column 0, the extra regressors are columns
1–11) has more than one distinct value on the brand's training split,
and a column that is constant on the training split is never
admitted. -/
theorem C3_admitted_regressors_vary (train : List PDRow) :
    (∀ j ∈ regressorsToUse train,
       ∃ x ∈ presentVals (train.map (fun r => r.cols.getD j none)),
         ∃ y ∈ presentVals (train.map (fun r => r.cols.getD j none)), x ≠ y)
    ∧ ∀ j : ℕ, ∀ c : ℚ,
        (∀ x ∈ presentVals (train.map (fun r => r.cols.getD j none)), x = c) →
        j ∉ regressorsToUse train := by
  have h1 : ∀ j ∈ regressorsToUse train,
      1 < nuniqueQ (train.map (fun r => r.cols.getD j none)) := by
    intro j hj
    unfold regressorsToUse at hj
    rcases List.mem_append.mp hj with hj | hj
    · split at hj
      · rename_i hc
        rcases List.mem_singleton.mp hj with rfl
        exact hc
      · exact absurd hj (by simp)
    · obtain ⟨i, _, hi⟩ := List.mem_filterMap.mp hj
      split at hi
      · rename_i hc
        rw [Option.some.injEq] at hi
        rw [← hi]
        exact hc
      · exact absurd hi (by simp)
  refine ⟨fun j hj => exists_ne_of_one_lt_nuniqueQ _ (h1 j hj), ?_⟩
  intro j c hc hj
  have h2 := nuniqueQ_le_one_of_const _ c hc
  exact absurd (h1 j hj) (by omega)

theorem C3_witness :
    (∃ x ∈ presentVals ((prophetTrain dfVaried).map (fun r => r.cols.getD 0 none)),
       ∃ y ∈ presentVals ((prophetTrain dfVaried).map (fun r => r.cols.getD 0 none)), x ≠ y)
    ∧ 1 ∉ regressorsToUse (prophetTrain dfVaried) := by
  constructor
  · exact (C3_admitted_regressors_vary (prophetTrain dfVaried)).1 0
      (by with_unfolding_all decide)
  · exact (C3_admitted_regressors_vary (prophetTrain dfVaried)).2 1 0
      (by with_unfolding_all decide)

/-- **C5**: both forecasters split chronologically with no shuffling:
the prophet training split is exactly the earliest `⌊0.8·n⌋` cleaned
rows (every training date strictly precedes every holdout date) and
the holdout is the rest; the LSTM splits its window samples the same
way by sample index. -/
theorem C5_chronological_split :
    (∀ rows : List SRow,
       prophetTrain rows ++ prophetTest rows = prophetCleaned rows
       ∧ (prophetTrain rows).length = (prophetCleaned rows).length * 4 / 5
       ∧ ∀ a ∈ prophetTrain rows, ∀ c ∈ prophetTest rows, a.ds < c.ds)
    ∧ ∀ rows : List SRow,
       (lstmWindows rows).take ((lstmWindows rows).length * 4 / 5)
           ++ (lstmWindows rows).drop ((lstmWindows rows).length * 4 / 5)
         = lstmWindows rows
       ∧ ((lstmWindows rows).take ((lstmWindows rows).length * 4 / 5)).length
           = (lstmWindows rows).length * 4 / 5 := by
  constructor
  · intro rows
    refine ⟨List.take_append_drop _ _, ?_, prophetTrain_lt_test rows⟩
    unfold prophetTrain prophetTrainSize
    rw [List.length_take]
    exact min_eq_left (by omega)
  · intro rows
    refine ⟨List.take_append_drop _ _, ?_⟩
    rw [List.length_take]
    exact min_eq_left (by omega)

theorem C5_witness :
    prophetTrain dfSmall ++ prophetTest dfSmall = prophetCleaned dfSmall
    ∧ ((prophetTrain dfSmall).headD pd0).ds < ((prophetTest dfSmall).headD pd0).ds := by
  refine ⟨(C5_chronological_split.1 dfSmall).1, ?_⟩
  refine (C5_chronological_split.1 dfSmall).2.2 _ ?_ _ ?_
  · with_unfolding_all decide
  · with_unfolding_all decide

/-- **C8**: the brand-scoped min-max scaler round-trips: inverse
transforming a freshly scaled matrix reproduces the original exactly
(the embedding is exact rational arithmetic, so "within floating-point
tolerance" strengthens to equality); in particular this holds for the
Sequence Forecaster's per-brand feature matrix. -/
theorem C8_scaler_roundtrip :
    (∀ (w : ℕ) (M : List (List ℚ)), (∀ r ∈ M, r.length = w) →
       (M.map (mmScaleRow (mmParams w M))).map (mmInvRow (mmParams w M)) = M)
    ∧ ∀ rows : List SRow,
       (lstmScaled rows).map (mmInvRow (mmParams 11 (lstmFeatureMatrix rows)))
         = lstmFeatureMatrix rows :=
  ⟨mm_matrix_roundtrip,
   fun rows => mm_matrix_roundtrip 11 _ (lstmFeatureMatrix_row_length rows)⟩

theorem C8_witness :
    (([[1, 2], [3, 4]] : List (List ℚ)).map (mmScaleRow (mmParams 2 [[1, 2], [3, 4]]))).map
      (mmInvRow (mmParams 2 [[1, 2], [3, 4]])) = [[1, 2], [3, 4]] :=
  C8_scaler_roundtrip.1 2 _ (by decide)

/-- **C1** fails on the code for the Seasonal Forecaster: on a 5-day
brand (dates 0–4) it emits 34 rows — the 4 training dates plus the 30
days after the last *training* date — not 30, and 5 of them are dated
on or before the brand's last observed date 4. -/
theorem C1_counterexample :
    listMaxI (dfSmall.map (·.date)) = 4
    ∧ (forecast_with_prophet sqrt0 fit0 (some dfSmall)).map
        (fun out => ((out.1.filter (fun r => r.brand = 0)).length,
          (out.1.filter (fun r => decide (r.brand = 0) && decide (r.date ≤ 4))).length))
      = .ok (34, 5) := by
  refine ⟨by with_unfolding_all decide, by with_unfolding_all rfl⟩

/-- **C1** (amended): for every successfully forecast brand the
Sequence Forecaster emits exactly 30 rows with strictly increasing
gap-free daily dates, all strictly after the brand's last observed
date, and no duplicate (Date, Brand) pairs; the Seasonal Forecaster
instead emits one row per future-frame date — its training dates
followed by the 30 consecutive days after the last *training* date —
still without duplicate (Date, Brand) pairs, but `train_size + 30`
rows that are not all after the last observed date. -/
theorem C1_amended :
    (∀ (sqrtQ : ℚ → ℚ) (tm : List (List (List ℚ)) → List ℚ → List (List ℚ) → ℚ)
       (b : ℕ) (rows : List SRow) (fs : List LFRow) (m : MetRow),
       lstmBrand sqrtQ tm b rows = .ok (some (fs, m)) →
         fs.length = 30
         ∧ (fs.map (·.date)).Chain' (fun d e => e = d + 1)
         ∧ (∀ r ∈ fs, ∀ s ∈ rows, s.date < r.date)
         ∧ (fs.map (fun r => (r.date, r.brand))).Nodup)
    ∧ ∀ (sqrtQ : ℚ → ℚ) (fit : List PDRow → List ℕ → Int → ℚ × ℚ × ℚ)
       (b : ℕ) (rows : List SRow) (fs : List PFRow) (m : MetRow),
       prophetBrand sqrtQ fit b rows = .ok (some (fs, m)) →
         fs.map (·.date) = prophetFutureDates rows
         ∧ fs.length = (prophetTrain rows).length + 30
         ∧ (fs.map (fun r => (r.date, r.brand))).Nodup := by
  constructor
  · intro sqrtQ tm b rows fs m h
    obtain ⟨hmb, hallb, hdates, hlen, _⟩ := lstmBrand_shape h
    refine ⟨hlen, ?_, ?_, ?_⟩
    · rw [hdates]
      unfold lstmFutureDates
      rw [List.chain'_map, show (30 : ℕ) = 29 + 1 from rfl, List.chain'_range_succ]
      intro i _
      push_cast
      ring
    · intro r hr s hs
      exact lstmFutureDates_gt_observed rows r.date (hdates ▸ List.mem_map_of_mem _ hr) s hs
    · have hsame : fs.map (fun r => (r.date, r.brand))
          = (fs.map (·.date)).map (fun d => (d, b)) := by
        rw [List.map_map]
        exact List.map_congr_left (fun r hr => by simp [hallb r hr])
      rw [hsame, hdates]
      exact ((lstmFutureDates_sorted rows).nodup).map (fun d1 d2 hde => (Prod.ext_iff.mp hde).1)
  · intro sqrtQ fit b rows fs m h
    obtain ⟨hmb, hallb, hdates, _⟩ := prophetBrand_shape h
    refine ⟨hdates, ?_, ?_⟩
    · have hl : fs.length = (prophetFutureDates rows).length := by
        rw [← hdates, List.length_map]
      rw [hl]
      unfold prophetFutureDates
      simp
    · have hsame : fs.map (fun r => (r.date, r.brand))
          = (fs.map (·.date)).map (fun d => (d, b)) := by
        rw [List.map_map]
        exact List.map_congr_left (fun r hr => by simp [hallb r hr])
      rw [hsame, hdates]
      exact (prophetFutureDates_nodup rows).map (fun d1 d2 hde => (Prod.ext_iff.mp hde).1)

theorem C1_witness :
    (∃ fs m, lstmBrand sqrt0 trainModel0 0 dfLstm = .ok (some (fs, m)) ∧ fs.length = 30)
    ∧ ∃ fs m, prophetBrand sqrt0 fit0 0 dfSmall = .ok (some (fs, m))
        ∧ fs.length = (prophetTrain dfSmall).length + 30 := by
  constructor
  · obtain ⟨fs, m, h⟩ := lstmBrand_ok_some sqrt0 trainModel0 0 dfLstm
      (by with_unfolding_all decide) (by with_unfolding_all decide)
      (by with_unfolding_all decide)
    exact ⟨fs, m, h, (C1_amended.1 sqrt0 trainModel0 0 dfLstm fs m h).1⟩
  · obtain ⟨fs, m, h⟩ := prophetBrand_ok_some sqrt0 fit0 0 dfSmall
      (by with_unfolding_all decide) (by with_unfolding_all decide)
      (by with_unfolding_all decide) (by with_unfolding_all decide)
    exact ⟨fs, m, h, (C1_amended.2 sqrt0 fit0 0 dfSmall fs m h).2.1⟩

/-- **C4**: per-brand failure is isolated: the guard conditions make
the per-brand procedure skip (`none`), and a skipped brand leaves the
run's output exactly as if that brand's rows were absent, so a
malformed brand never prevents forecasts for the healthy brands. -/
theorem C4_brand_isolation :
    (∀ (sqrtQ : ℚ → ℚ) (fit : List PDRow → List ℕ → Int → ℚ × ℚ × ℚ)
       (b : ℕ) (rows : List SRow),
       (prophetCleaned rows).length < 3 ∨ (prophetTrain rows).length < 2
         ∨ ((prophetTrain rows).any fun r => r.y.isNone || r.cols.any (·.isNone)) = true
         ∨ (prophetTest rows).isEmpty = true →
       prophetBrand sqrtQ fit b rows = .ok none)
    ∧ (∀ (sqrtQ : ℚ → ℚ) (tm : List (List (List ℚ)) → List ℚ → List (List ℚ) → ℚ)
       (b : ℕ) (rows : List SRow),
       (lstmAgg rows).length < seqLength + 1 ∨ (lstmWindows rows).length < 20 →
       lstmBrand sqrtQ tm b rows = .ok none)
    ∧ (∀ (sqrtQ : ℚ → ℚ) (fit : List PDRow → List ℕ → Int → ℚ × ℚ × ℚ)
       (df : List SRow) (b : ℕ),
       prophetBrand sqrtQ fit b (rowsOfBrand b df) = .ok none →
       forecast_with_prophet sqrtQ fit (some df)
         = forecast_with_prophet sqrtQ fit (some (df.filter (fun r => r.brand ≠ b))))
    ∧ ∀ (sqrtQ : ℚ → ℚ) (tm : List (List (List ℚ)) → List ℚ → List (List ℚ) → ℚ)
       (df : List SRow) (b : ℕ),
       lstmBrand sqrtQ tm b (rowsOfBrand b df) = .ok none →
       run_lstm_forecast sqrtQ tm (some df)
         = run_lstm_forecast sqrtQ tm (some (df.filter (fun r => r.brand ≠ b))) := by
  refine ⟨fun _ _ _ _ h => prophetBrand_skip h, fun _ _ _ _ h => lstmBrand_skip h, ?_, ?_⟩
  · intro sq fit df b h
    show runForecastLoop _ df = runForecastLoop _ _
    exact runForecastLoop_skip _ df b h
  · intro sq tm df b h
    show runForecastLoop _ df = runForecastLoop _ _
    exact runForecastLoop_skip _ df b h

theorem C4_witness :
    prophetBrand sqrt0 fit0 1 (rowsOfBrand 1 dfMixed) = .ok none
    ∧ forecast_with_prophet sqrt0 fit0 (some dfMixed)
        = forecast_with_prophet sqrt0 fit0 (some (dfMixed.filter (fun r => r.brand ≠ 1))) := by
  have h1 : (prophetCleaned (rowsOfBrand 1 dfMixed)).length < 3 := by
    with_unfolding_all decide
  have h2 := C4_brand_isolation.1 sqrt0 fit0 1 (rowsOfBrand 1 dfMixed) (Or.inl h1)
  exact ⟨h2, C4_brand_isolation.2.2.1 sqrt0 fit0 dfMixed 1 h2⟩

theorem getD_zipWith_applyNorm :
    ∀ (ps : List (ℚ × ℚ)) (xs : List (Option ℚ)) (j : ℕ), j < ps.length →
      (List.zipWith applyNorm ps xs).getD j none
        = applyNorm (ps.getD j (0, 0)) (xs.getD j none) := by
  intro ps
  induction ps with
  | nil => intro xs j hj; simp at hj
  | cons p ps ih =>
    intro xs j hj
    cases xs with
    | nil => simp [applyNorm]
    | cons x xs =>
      cases j with
      | zero => rfl
      | succ j => exact ih xs j (by simpa using hj)

/-- **C7**: preprocessing normalises the listed covariate columns —
quantity, popularity, the lag/rolling features and the eight numeric
covariates — with parameters computed once over the whole table
(global, not per brand): each cell becomes `(x - mean) / (std + 1e-6)`,
the sales target is left untouched, every normalised column has mean
exactly 0, and the denominator is strictly positive whenever the
standard deviation is nonnegative, so the division is never by
zero. -/
theorem C7_global_normalisation (stdFn : List ℚ → ℚ) (df : List RawRow) :
    (normalizeDf stdFn df).map (·.totalSales) = df.map (·.totalSales)
    ∧ (normalizeDf stdFn df).map (·.quantitySold)
        = normColVals stdFn (df.map (·.quantitySold))
    ∧ (normalizeDf stdFn df).map (·.onlinePopularity)
        = normColVals stdFn (df.map (·.onlinePopularity))
    ∧ (normalizeDf stdFn df).map (·.salesLag1)
        = normColVals stdFn (df.map (·.salesLag1))
    ∧ (normalizeDf stdFn df).map (·.salesMA3)
        = normColVals stdFn (df.map (·.salesMA3))
    ∧ (∀ j < 8, covCol j (normalizeDf stdFn df) = normColVals stdFn (covCol j df))
    ∧ (∀ col : List (Option ℚ), meanQ (presentVals (normColVals stdFn col)) = 0)
    ∧ ∀ col : List (Option ℚ), 0 ≤ stdFn (presentVals col) →
        0 < (normParams stdFn col).2 := by
  refine ⟨?_, ?_, ?_, ?_, ?_, ?_, ?_, ?_⟩
  · unfold normalizeDf
    rw [List.map_map]
    rfl
  · unfold normalizeDf normColVals
    simp only [List.map_map]
    rfl
  · unfold normalizeDf normColVals
    simp only [List.map_map]
    rfl
  · unfold normalizeDf normColVals
    simp only [List.map_map]
    rfl
  · unfold normalizeDf normColVals
    simp only [List.map_map]
    rfl
  · intro j hj
    unfold covCol normalizeDf normColVals
    simp only [List.map_map]
    refine List.map_congr_left (fun r hr => ?_)
    simp only [Function.comp_apply]
    rw [getD_zipWith_applyNorm _ _ j (by simpa using hj)]
    congr 1
    rw [List.getD_eq_getElem?_getD, List.getElem?_map, List.getElem?_range hj]
    rfl
  · intro col
    unfold meanQ
    rw [sum_normColVals]
    simp
  · intro col hstd
    unfold normParams
    exact add_pos_of_nonneg_of_pos hstd (by norm_num)

theorem C7_witness :
    covCol 0 (normalizeDf (fun _ => 0) dfRaw) = normColVals (fun _ => 0) (covCol 0 dfRaw)
    ∧ meanQ (presentVals (normColVals (fun _ => 0) [some 1, some 3])) = 0
    ∧ 0 < (normParams (fun _ => 0) [some 1, some 3]).2 :=
  ⟨(C7_global_normalisation (fun _ => 0) dfRaw).2.2.2.2.2.1 0 (by norm_num),
   (C7_global_normalisation (fun _ => 0) dfRaw).2.2.2.2.2.2.1 [some 1, some 3],
   (C7_global_normalisation (fun _ => 0) dfRaw).2.2.2.2.2.2.2 [some 1, some 3] (by norm_num)⟩

/-- **C9**: preprocessing is a pure function of its input — running it
twice on the same unchanged raw table yields identical (hence
byte-identical once serialised) output — and the aggregated output
carries pairwise distinct (category, brand, date) keys: exactly one
row per key. -/
theorem C9_preprocessing_deterministic :
    (∀ (stdFn : List ℚ → ℚ) (raw : Option (List RawRow)),
       preprocess_data stdFn raw = preprocess_data stdFn raw)
    ∧ ∀ (stdFn : List ℚ → ℚ) (df : List RawRow),
       ((preprocessFrame stdFn df).map (fun r => (r.category, r.brand, r.date))).Nodup :=
  ⟨fun _ _ => rfl, fun _ _ => preprocessAgg_keys_nodup _⟩

theorem loop_metric_brands_iff {F : Type*}
    (proc : ℕ → List SRow → Except String (Option (List F × MetRow)))
    (brandOf : F → ℕ)
    (hshape : ∀ k rows fs m, proc k rows = .ok (some (fs, m)) →
      m.brand = k ∧ fs ≠ [] ∧ ∀ r ∈ fs, brandOf r = k)
    (df : List SRow) (b : ℕ) (out : List F × List MetRow)
    (hout : runForecastLoop proc df = .ok out) :
    b ∈ out.1.map brandOf ↔ b ∈ out.2.map (·.brand) := by
  have heq := foldl_loopStep_ok_eq proc (groupByKey (fun r => r.brand) df) ([], []) out hout
  rw [heq]
  simp only [List.nil_append, List.mem_map, List.mem_flatMap, List.mem_filterMap]
  constructor
  · rintro ⟨r, ⟨g, hg, hr⟩, rfl⟩
    cases hp : proc g.1 g.2 with
    | error e => rw [hp] at hr; simp at hr
    | ok o =>
      cases o with
      | none => rw [hp] at hr; simp at hr
      | some p =>
        obtain ⟨fs, m⟩ := p
        obtain ⟨hm, hne, hall⟩ := hshape g.1 g.2 fs m (by rw [hp])
        rw [hp] at hr
        simp only at hr
        refine ⟨m, ⟨g, hg, by rw [hp]⟩, ?_⟩
        rw [hm, hall r hr]
  · rintro ⟨m, ⟨g, hg, hm'⟩, rfl⟩
    cases hp : proc g.1 g.2 with
    | error e => rw [hp] at hm'; simp at hm'
    | ok o =>
      cases o with
      | none => rw [hp] at hm'; simp at hm'
      | some p =>
        obtain ⟨fs, m2⟩ := p
        rw [hp] at hm'
        simp only [Option.some.injEq] at hm'
        obtain ⟨hmb, hne, hall⟩ := hshape g.1 g.2 fs m2 (by rw [hp])
        obtain ⟨r, hr⟩ := List.exists_mem_of_ne_nil fs hne
        refine ⟨r, ⟨g, hg, by rw [hp]; simpa using hr⟩, ?_⟩
        rw [hall r hr, ← hm', hmb]

/-- **C10**: in each forecaster a brand has a metrics row exactly when
it contributed forecast rows — once the guards pass, the metrics row
and the (nonempty) forecast rows are appended in the same iteration —
so the brand sets of the two output tables coincide. -/
theorem C10_metrics_iff_forecasts :
    (∀ (sqrtQ : ℚ → ℚ) (fit : List PDRow → List ℕ → Int → ℚ × ℚ × ℚ)
       (df : List SRow) (b : ℕ) (out : List PFRow × List MetRow),
       runForecastLoop (prophetBrand sqrtQ fit) df = .ok out →
       (b ∈ out.1.map (·.brand) ↔ b ∈ out.2.map (·.brand)))
    ∧ ∀ (sqrtQ : ℚ → ℚ) (tm : List (List (List ℚ)) → List ℚ → List (List ℚ) → ℚ)
       (df : List SRow) (b : ℕ) (out : List LFRow × List MetRow),
       runForecastLoop (lstmBrand sqrtQ tm) df = .ok out →
       (b ∈ out.1.map (·.brand) ↔ b ∈ out.2.map (·.brand)) := by
  constructor
  · intro sq fit df b out hout
    refine loop_metric_brands_iff _ _ ?_ df b out hout
    intro k rows fs m h
    obtain ⟨hm, hall, hdates, _⟩ := prophetBrand_shape h
    refine ⟨hm, ?_, hall⟩
    intro he
    have hfl : (prophetFutureDates rows).length = 0 := by
      rw [← hdates, he]
      rfl
    unfold prophetFutureDates at hfl
    simp at hfl
  · intro sq tm df b out hout
    refine loop_metric_brands_iff _ _ ?_ df b out hout
    intro k rows fs m h
    obtain ⟨hm, hall, _, hlen, _⟩ := lstmBrand_shape h
    refine ⟨hm, ?_, hall⟩
    intro he
    rw [he] at hlen
    simp at hlen

theorem C10_witness :
    ∃ out, runForecastLoop (prophetBrand sqrt0 fit0) dfSmall = .ok out
      ∧ (0 ∈ out.1.map (·.brand) ↔ 0 ∈ out.2.map (·.brand)) := by
  obtain ⟨out, hout⟩ := runForecastLoop_ok_of_all_ok (prophetBrand sqrt0 fit0) dfSmall
    (by with_unfolding_all decide)
  exact ⟨out, hout, C10_metrics_iff_forecasts.1 sqrt0 fit0 dfSmall 0 out hout⟩

end BrandForecast
